import Mathlib

set_option maxHeartbeats 1000000

/-!
Shallow embedding of the incremental range cache implemented in
`src/stage3/earthquake_monitor.py` and `src/stage3/stockprices.py`.

DataFrames are modelled as lists of records.  The earthquake frame carries an
explicit `tzAware` flag, because in pandas the timezone of a datetime column is
a column-level dtype: `pd.to_datetime(..., unit="ms")` produces a naive column
and `tz_localize(timezone.utc)` produces an aware one.  The magnitude column of
the earthquake frame is `Option Int` (a float column can hold missing values);
upstream events carry `Option Int` magnitudes, `None` meaning a null `mag`.
Timestamps are `Nat` UTC instants (epoch milliseconds); observed values are
`Int` (no arithmetic is ever performed on them, only equality and order, so the
integers stand in for the floats of the source).

Effects of one `update_cache` call are made explicit in the result record:
the value returned to the caller, the cache-file content after the call, a
`saved` flag (was `to_pickle` executed), the list of fetch calls issued (the
`(start, end)` ranges passed to the fetch function), and the list of surfaced
`st.error` warnings (recorded by upstream HTTP status code).
-/

/-- Model of pandas `drop_duplicates(subset=key, keep="first")`: keep the first
record with each key, walking left to right, skipping keys already `seen`. -/
def dedupByKey {α : Type} {κ : Type} [DecidableEq κ] (key : α → κ) : List κ → List α → List α
  | _, [] => []
  | seen, r :: rs =>
      if key r ∈ seen then dedupByKey key seen rs
      else r :: dedupByKey key (key r :: seen) rs

/-- Insert a record into a list kept ordered by a `Nat` sort key. -/
def insertTs {α : Type} (key : α → Nat) (r : α) : List α → List α
  | [] => [r]
  | s :: ss => if key r ≤ key s then r :: s :: ss else s :: insertTs key r ss

/-- Model of pandas `sort_values(key)`: stable sort by a `Nat` sort key.  Every
call site sorts a frame whose keys are unique (after `drop_duplicates`) or come
sorted from the upstream construction, so stability questions never arise. -/
def sortTs {α : Type} (key : α → Nat) : List α → List α
  | [] => []
  | r :: rs => insertTs key r (sortTs key rs)

/-- Model of `df[col].min()` on a non-empty frame (`0` on an empty one; the
source only evaluates it on non-empty frames). -/
def minKey {α : Type} (key : α → Nat) : List α → Nat
  | [] => 0
  | r :: rs => rs.foldl (fun m x => Nat.min m (key x)) (key r)

/-- Model of `df[col].max()` on a non-empty frame. -/
def maxKey {α : Type} (key : α → Nat) : List α → Nat
  | [] => 0
  | r :: rs => rs.foldl (fun m x => Nat.max m (key x)) (key r)

/-!  Earthquake monitor (`src/stage3/earthquake_monitor.py`). -/

/-- One GeoJSON feature: `properties.time` (epoch ms) and `properties.mag`
(nullable). -/
structure EqEvent where
  time : Nat
  mag : Option Int
deriving DecidableEq, Repr

/-- An HTTP response from the USGS endpoint: status code plus the feature list
of the decoded JSON body. -/
structure EqResponse where
  status : Nat
  features : List EqEvent
deriving DecidableEq, Repr

/-- A row of the earthquake frame: `(timestamp, magnitude)`. -/
abbrev EqRow := Nat × Option Int

/-- The earthquake DataFrame: rows plus the timezone dtype of the timestamp
column (`false` = naive, `true` = UTC-aware). -/
structure EqDF where
  rows : List EqRow
  tzAware : Bool
deriving DecidableEq, Repr

/-- The empty frame `pd.DataFrame(columns=["timestamp", "magnitude"])`. -/
def emptyEqDF : EqDF := { rows := [], tzAware := false }

/-- `fetch_earthquake_json`: on a non-200 status, `st.error(...)` is shown and
`{"features": []}` is returned; otherwise the decoded JSON is returned.  The
second component records the surfaced `st.error` warning (by status code). -/
def fetch_earthquake_json (resp : EqResponse) : List EqEvent × List Nat :=
  if resp.status ≠ 200 then ([], [resp.status]) else (resp.features, [])

/-- `construct_earthquake_df`: keep events whose `mag` is not `None`, build the
frame, convert `timestamp` with `pd.to_datetime(unit="ms")` (a NAIVE datetime
column) and sort by timestamp.  An empty event list yields the empty frame. -/
def construct_earthquake_df (features : List EqEvent) : EqDF :=
  let events := (features.filter (fun ev => ev.mag.isSome)).map (fun ev => (ev.time, ev.mag))
  if events.length > 0 then
    { rows := sortTs Prod.fst events, tzAware := false }
  else
    { rows := events, tzAware := false }

/-- `pd.concat([a, b])`.  The rows concatenate; for the dtype of the timestamp
column, pandas ignores empty frames, otherwise the column stays aware only if
both inputs are aware. -/
def dfConcat (a b : EqDF) : EqDF :=
  { rows := a.rows ++ b.rows,
    tzAware :=
      if a.rows = [] then b.tzAware
      else if b.rows = [] then a.tzAware
      else a.tzAware && b.tzAware }

/-- Observable outcome of one `update_cache` call. -/
structure EqCacheResult where
  /-- the DataFrame returned to `main` -/
  returned : EqDF
  /-- content of `earthquake_cache.pkl` after the call (`none` = file absent) -/
  persistedFile : Option EqDF
  /-- whether `to_pickle` ran during this call -/
  saved : Bool
  /-- the concatenated frame right before the equality check and dedup/sort -/
  merged_pre : EqDF
  /-- the `(start, end)` ranges passed to `fetch_earthquake_json`, in order -/
  fetchCalls : List (Nat × Nat)
  /-- surfaced `st.error` warnings, by status code -/
  warnings : List Nat
deriving DecidableEq, Repr

/-- The gap-computation and fetch half of `update_cache` (the body between the
coverage-bound computation and the equality check): determine
`earliest_cached` / `latest_cached` (with the sentinels `end_time` /
`start_time` on an empty cache), fetch the "earlier" range and concatenate it
in front, fetch the "newer" range and concatenate it behind.  Returns the
concatenated frame together with the list of issued fetch ranges and the
surfaced warnings. -/
def eq_fetch_merge (fetcher : Nat → Nat → EqResponse) (cached : EqDF)
    (start_time end_time : Nat) : EqDF × List (Nat × Nat) × List Nat :=
  let earliest_cached := if cached.rows = [] then end_time else minKey Prod.fst cached.rows
  let latest_cached := if cached.rows = [] then start_time else maxKey Prod.fst cached.rows
  let step1 :=
    if start_time < earliest_cached then
      let fj := fetch_earthquake_json (fetcher start_time earliest_cached)
      let earlier_df := construct_earthquake_df fj.1
      (dfConcat earlier_df cached, [(start_time, earliest_cached)], fj.2)
    else
      (cached, ([] : List (Nat × Nat)), ([] : List Nat))
  if end_time > latest_cached then
    let fj := fetch_earthquake_json (fetcher latest_cached end_time)
    let newer_df := construct_earthquake_df fj.1
    (dfConcat step1.1 newer_df, step1.2.1 ++ [(latest_cached, end_time)], step1.2.2 ++ fj.2)
  else
    step1

/-- `update_cache(start_time, end_time)` of the earthquake monitor.  The cache
file content is passed as `cacheFile` (`none` = `CACHE_FILE.exists()` false);
the upstream is a function from a requested range to the HTTP response.
Composes `eq_fetch_merge` with the final persist decision of the source:
`if not updated_df.equals(cached_df): drop_duplicates; sort_values; to_pickle`. -/
def update_cache (fetcher : Nat → Nat → EqResponse) (cacheFile : Option EqDF)
    (start_time end_time : Nat) : EqCacheResult :=
  let cached := cacheFile.getD emptyEqDF
  let g := eq_fetch_merge fetcher cached start_time end_time
  let updated_df := g.1
  if updated_df ≠ cached then
    let final : EqDF :=
      { rows := sortTs Prod.fst (dedupByKey Prod.fst [] updated_df.rows),
        tzAware := updated_df.tzAware }
    { returned := final, persistedFile := some final, saved := true,
      merged_pre := updated_df, fetchCalls := g.2.1, warnings := g.2.2 }
  else
    { returned := updated_df, persistedFile := cacheFile, saved := false,
      merged_pre := updated_df, fetchCalls := g.2.1, warnings := g.2.2 }

/-- The cache-loading prefix of `update_cache`: `if CACHE_FILE.exists():
cached_df = pd.read_pickle(CACHE_FILE)`.  A file whose bytes cannot be
unpickled makes `read_pickle` raise; no handler exists anywhere in the script,
so the exception propagates (modelled by `Except.error`).  A missing file
yields the empty frame. -/
def update_cache_load (fetcher : Nat → Nat → EqResponse)
    (file : Option (Except String EqDF)) (start_time end_time : Nat) :
    Except String EqCacheResult :=
  match file with
  | none => Except.ok (update_cache fetcher none start_time end_time)
  | some (Except.ok df) => Except.ok (update_cache fetcher (some df) start_time end_time)
  | some (Except.error msg) => Except.error msg

/-- `main`: `if not df.empty and df["timestamp"].dt.tz is None:
df["timestamp"] = df["timestamp"].dt.tz_localize(timezone.utc)`. -/
def main_display_df (df : EqDF) : EqDF :=
  if df.rows ≠ [] ∧ df.tzAware = false then { df with tzAware := true } else df

/-- The pandas comparison `magnitude >= min_magnitude`: a null magnitude (NaN)
compares false. -/
def magGE (m : Option Int) (min_magnitude : Int) : Bool :=
  match m with
  | some v => min_magnitude ≤ v
  | none => false

/-- `main`'s display filtering: `df[df["magnitude"] >= min_magnitude]` then
`filtered_df[filtered_df["timestamp"] >= start_time]`. -/
def main_filter (df : EqDF) (min_magnitude : Int) (start_time : Nat) : EqDF :=
  let d := main_display_df df
  let f1 : EqDF := { d with rows := d.rows.filter (fun r => magGE r.2 min_magnitude) }
  { f1 with rows := f1.rows.filter (fun r => decide (start_time ≤ r.1)) }

/-- End-to-end slice of `main`: update the cache for the requested window, then
apply the display filters. -/
def mainPipeline (fetcher : Nat → Nat → EqResponse) (cacheFile : Option EqDF)
    (start_time end_time : Nat) (min_magnitude : Int) : EqDF :=
  main_filter (update_cache fetcher cacheFile start_time end_time).returned
    min_magnitude start_time

/-- Strict ascent of earthquake-frame rows by timestamp (this entails the
absence of duplicate timestamps). -/
@[reducible] def strictAscend (l : List EqRow) : Prop :=
  l.Pairwise (fun a b => a.1 < b.1)

/-!  Stock monitor (`src/stage3/stockprices.py`). -/

/-- A row of the stock cache: `timestamp`, `price` (the `Close` column) and the
ticker `symbol` assigned by `fetch_stock_data`. -/
structure StockRow where
  ts : Nat
  price : Int
  symbol : String
deriving DecidableEq, Repr

/-- `fetch_stock_data(symbol, start, end)`: download `(timestamp, Close)` pairs
from the upstream history provider and assign the `symbol` column.  An upstream
failure surfaces as `st.error` plus an empty frame, i.e. as `hist` returning
the empty list here. -/
def fetch_stock_data (hist : String → Nat → Nat → List (Nat × Int)) (symbol : String)
    (start_time end_time : Nat) : List StockRow :=
  (hist symbol start_time end_time).map (fun p => { ts := p.1, price := p.2, symbol := symbol })

/-- Observable outcome of one `update_cache` call of the stock monitor. -/
structure StockCacheResult where
  /-- the per-symbol slice returned to `main` -/
  returned : List StockRow
  /-- content of `stock_cache.pkl` after the call -/
  newCache : List StockRow
  /-- whether `to_pickle` ran during this call -/
  saved : Bool
  /-- the `(start, end)` ranges passed to `fetch_stock_data`, in order -/
  fetchCalls : List (Nat × Nat)
deriving DecidableEq, Repr

/-- Step 3 of the stock monitor's `update_cache`: fetch any missing data
before the cached range, concatenating a non-empty result in front of the
slice.  Also returns the issued fetch range. -/
def stock_fetch_before (hist : String → Nat → Nat → List (Nat × Int))
    (symbol_df : List StockRow) (symbol : String)
    (start_time earliest_cached : Nat) : List StockRow × List (Nat × Nat) :=
  if start_time < earliest_cached then
    let earlier := fetch_stock_data hist symbol start_time earliest_cached
    (if earlier ≠ [] then earlier ++ symbol_df else symbol_df,
     [(start_time, earliest_cached)])
  else
    (symbol_df, [])

/-- Steps 3 and 4 of the stock monitor's `update_cache`: compute the coverage
bounds of the slice (with the sentinels `end_time` / `start_time` on an empty
slice), fetch the before-gap, then fetch the after-gap, concatenating only
non-empty fetch results.  Returns the concatenated slice and the issued fetch
ranges. -/
def stock_fetch_merge (hist : String → Nat → Nat → List (Nat × Int))
    (symbol_df : List StockRow) (symbol : String)
    (start_time end_time : Nat) : List StockRow × List (Nat × Nat) :=
  let earliest_cached := if symbol_df = [] then end_time else minKey StockRow.ts symbol_df
  let latest_cached := if symbol_df = [] then start_time else maxKey StockRow.ts symbol_df
  let step1 := stock_fetch_before hist symbol_df symbol start_time earliest_cached
  if end_time > latest_cached then
    let newer := fetch_stock_data hist symbol latest_cached end_time
    (if newer ≠ [] then step1.1 ++ newer else step1.1,
     step1.2 ++ [(latest_cached, end_time)])
  else
    step1

/-- Step 5 of the stock monitor's `update_cache`: on a non-empty slice,
`drop_duplicates(subset=["timestamp", "symbol"])` (keep-first), then
`sort_values("timestamp")` and `reset_index(drop=True)` (a no-op on a list of
records). -/
def stock_dedup_sort (slice : List StockRow) : List StockRow :=
  if slice ≠ [] then
    sortTs StockRow.ts (dedupByKey (fun r => (r.ts, r.symbol)) [] slice)
  else
    slice

/-- `update_cache(symbol, start_time, end_time)` of the stock monitor: slice
the full cache to the requested symbol, run the gap fetches
(`stock_fetch_merge`), normalise the slice (`stock_dedup_sort`), and persist
the whole cache (other symbols' rows followed by the new slice) when the slice
changed (step 6). -/
def stock_update_cache (hist : String → Nat → Nat → List (Nat × Int))
    (full_cache : List StockRow) (symbol : String)
    (start_time end_time : Nat) : StockCacheResult :=
  let symbol_df := full_cache.filter (fun r => r.symbol == symbol)
  let g := stock_fetch_merge hist symbol_df symbol start_time end_time
  let symbol_df2 := stock_dedup_sort g.1
  if symbol_df2 ≠ full_cache.filter (fun r => r.symbol == symbol) then
    let other := full_cache.filter (fun r => !(r.symbol == symbol))
    { returned := symbol_df2, newCache := other ++ symbol_df2, saved := true,
      fetchCalls := g.2 }
  else
    { returned := symbol_df2, newCache := full_cache, saved := false,
      fetchCalls := g.2 }

/-- Strict ascent of stock rows by timestamp. -/
@[reducible] def stockAscend (l : List StockRow) : Prop :=
  l.Pairwise (fun a b => a.ts < b.ts)

/-!  Concrete upstream instances used by the concrete evaluations below. -/

/-- An upstream that always answers 200 with a single event at `t = 3`. -/
def fetcherOneEvent : Nat → Nat → EqResponse :=
  fun _ _ => { status := 200, features := [{ time := 3, mag := some 1 }] }

/-- An upstream whose answer contains an event at `t = 5` with magnitude 99
(a revised value for an already-cached record) and one at `t = 7`. -/
def fetcherSeam : Nat → Nat → EqResponse :=
  fun _ _ =>
    { status := 200,
      features := [{ time := 5, mag := some 99 }, { time := 7, mag := some 3 }] }

/-- A fixed upstream world with events at `t = 2` (magnitude 5) and `t = 4`
(magnitude 7); a fetch returns exactly the events inside the requested
half-open range, so repeated identical requests see identical upstream data. -/
def fetcherWorld : Nat → Nat → EqResponse :=
  fun s e =>
    { status := 200,
      features := [{ time := 2, mag := some 5 }, { time := 4, mag := some 7 }].filter
        (fun ev => s ≤ ev.time && ev.time < e) }

/-- An upstream that always fails with HTTP 500. -/
def fetcherFail : Nat → Nat → EqResponse :=
  fun _ _ => { status := 500, features := [] }

/-- An upstream that always answers 200 with no events. -/
def fetcherEmpty : Nat → Nat → EqResponse :=
  fun _ _ => { status := 200, features := [] }

/-- An upstream that always answers 200 with a single event at `t = 5`. -/
def fetcherSingle : Nat → Nat → EqResponse :=
  fun _ _ => { status := 200, features := [{ time := 5, mag := some 2 }] }

/-- A stock history upstream that always returns nothing. -/
def histEmpty : String → Nat → Nat → List (Nat × Int) := fun _ _ _ => []

/-- A fixed stock-history world: closing prices at `t = 2` and `t = 4`; a
fetch returns exactly the points inside the requested half-open range, so
repeated identical requests see identical upstream data. -/
def histWorld : String → Nat → Nat → List (Nat × Int) :=
  fun _ s e => ([(2, 5), (4, 7)] : List (Nat × Int)).filter (fun p => s ≤ p.1 && p.1 < e)

/-!  Helper lemmas about the pandas models. -/

theorem mem_dedupByKey {α : Type} {κ : Type} [DecidableEq κ] {key : α → κ} :
    ∀ {seen : List κ} {l : List α} {a : α}, a ∈ dedupByKey key seen l → a ∈ l := by
  intro seen l
  induction l generalizing seen with
  | nil => intro a h; simp [dedupByKey] at h
  | cons r rs ih =>
    intro a h
    by_cases hk : key r ∈ seen
    · simp only [dedupByKey, if_pos hk] at h
      exact List.mem_cons_of_mem _ (ih h)
    · simp only [dedupByKey, if_neg hk, List.mem_cons] at h
      rcases h with h | h
      · exact h ▸ List.mem_cons_self _ _
      · exact List.mem_cons_of_mem _ (ih h)

theorem dedupByKey_keys_nodup {α : Type} {κ : Type} [DecidableEq κ] (key : α → κ) :
    ∀ (l : List α) (seen : List κ),
      ((dedupByKey key seen l).map key).Nodup ∧
      ∀ k ∈ (dedupByKey key seen l).map key, k ∉ seen := by
  intro l
  induction l with
  | nil => intro seen; simp [dedupByKey]
  | cons r rs ih =>
    intro seen
    by_cases hk : key r ∈ seen
    · simpa only [dedupByKey, if_pos hk] using ih seen
    · have ih2 := ih (key r :: seen)
      simp only [dedupByKey, if_neg hk, List.map_cons, List.nodup_cons, List.mem_cons]
      refine ⟨⟨fun hmem => (ih2.2 _ hmem) (List.mem_cons_self _ _), ih2.1⟩, ?_⟩
      rintro k (rfl | hkmem)
      · exact hk
      · exact fun hin => (ih2.2 _ hkmem) (List.mem_cons_of_mem _ hin)

theorem insertTs_perm {α : Type} (key : α → Nat) (r : α) (l : List α) :
    List.Perm (insertTs key r l) (r :: l) := by
  induction l with
  | nil => exact List.Perm.refl _
  | cons s ss ih =>
    by_cases h : key r ≤ key s
    · simp [insertTs, h]
    · simp only [insertTs, if_neg h]
      exact (ih.cons s).trans (List.Perm.swap r s ss)

theorem sortTs_perm {α : Type} (key : α → Nat) (l : List α) : List.Perm (sortTs key l) l := by
  induction l with
  | nil => exact List.Perm.refl _
  | cons r rs ih => exact (insertTs_perm key r _).trans (ih.cons r)

theorem mem_sortTs {α : Type} (key : α → Nat) (l : List α) (a : α) :
    a ∈ sortTs key l ↔ a ∈ l :=
  (sortTs_perm key l).mem_iff

theorem insertTs_sorted {α : Type} (key : α → Nat) (r : α) (l : List α)
    (h : l.Pairwise (fun a b => key a ≤ key b)) :
    (insertTs key r l).Pairwise (fun a b => key a ≤ key b) := by
  induction l with
  | nil => simp [insertTs]
  | cons s ss ih =>
    rcases List.pairwise_cons.mp h with ⟨hs, hss⟩
    by_cases hle : key r ≤ key s
    · simp only [insertTs, if_pos hle]
      refine List.pairwise_cons.mpr ⟨?_, h⟩
      intro x hx
      rcases List.mem_cons.mp hx with rfl | hx
      · exact hle
      · exact hle.trans (hs x hx)
    · simp only [insertTs, if_neg hle]
      refine List.pairwise_cons.mpr ⟨?_, ih hss⟩
      intro x hx
      rcases List.mem_cons.mp ((insertTs_perm key r ss).mem_iff.mp hx) with rfl | hx
      · exact Nat.le_of_not_le hle
      · exact hs x hx

theorem sortTs_sorted {α : Type} (key : α → Nat) (l : List α) :
    (sortTs key l).Pairwise (fun a b => key a ≤ key b) := by
  induction l with
  | nil => simp [sortTs]
  | cons r rs ih => exact insertTs_sorted key r _ ih

theorem pairwise_lt_of_sorted_nodup {α : Type} (key : α → Nat) (l : List α)
    (hs : l.Pairwise (fun a b => key a ≤ key b))
    (hn : (l.map key).Nodup) :
    l.Pairwise (fun a b => key a < key b) := by
  have hn2 : l.Pairwise (fun a b => key a ≠ key b) := List.pairwise_map.mp hn
  exact (hs.and hn2).imp (fun h => Nat.lt_of_le_of_ne h.1 h.2)

/-- The dedup-then-sort step produces a strictly ascending list of rows. -/
theorem sortTs_dedup_strict {α : Type} (key : α → Nat) (l : List α) :
    (sortTs key (dedupByKey key [] l)).Pairwise (fun a b => key a < key b) := by
  apply pairwise_lt_of_sorted_nodup key _ (sortTs_sorted key _)
  have h1 := (dedupByKey_keys_nodup key l []).1
  exact (((sortTs_perm key (dedupByKey key [] l)).map key).nodup_iff).mpr h1

/-- `dedupByKey` on the timestamp key keeps, for each timestamp not yet seen,
exactly the first record carrying it. -/
theorem mem_dedup_fst_iff :
    ∀ (l : List EqRow) (seen : List Nat) (t : Nat) (v : Option Int),
      ((t, v) ∈ dedupByKey Prod.fst seen l ↔
        (t ∉ seen ∧ l.find? (fun r => r.1 == t) = some (t, v))) := by
  intro l
  induction l with
  | nil => intro seen t v; simp [dedupByKey]
  | cons r rs ih =>
    intro seen t v
    by_cases hk : r.1 ∈ seen
    · simp only [dedupByKey, if_pos hk]
      by_cases ht : r.1 = t
      · subst ht
        rw [ih]
        simp [hk]
      · rw [ih, List.find?_cons_of_neg _ (by simpa using ht)]
    · simp only [dedupByKey, if_neg hk]
      by_cases ht : r.1 = t
      · subst ht
        rw [List.find?_cons_of_pos _ (by simp)]
        constructor
        · intro h
          rcases List.mem_cons.mp h with heq | hmem
          · exact ⟨hk, by rw [← heq]⟩
          · exact absurd ((ih _ _ _).mp hmem).1 (by simp)
        · rintro ⟨-, hfind⟩
          exact List.mem_cons.mpr (Or.inl (Option.some.inj hfind).symm)
      · rw [List.find?_cons_of_neg _ (by simpa using ht)]
        constructor
        · intro h
          rcases List.mem_cons.mp h with heq | hmem
          · exact absurd (congrArg Prod.fst heq).symm ht
          · have hm := (ih _ _ _).mp hmem
            refine ⟨fun hin => hm.1 (List.mem_cons_of_mem _ hin), hm.2⟩
        · rintro ⟨hseen, hfind⟩
          refine List.mem_cons.mpr (Or.inr ((ih _ _ _).mpr ⟨?_, hfind⟩))
          intro hin
          rcases List.mem_cons.mp hin with h | h
          · exact ht h.symm
          · exact hseen h

/-- In a list with pairwise-distinct timestamps, membership of a record is the
same as being found first by its timestamp. -/
theorem mem_iff_find_of_nodup_keys :
    ∀ (l : List EqRow), (l.map Prod.fst).Nodup → ∀ (t : Nat) (v : Option Int),
      ((t, v) ∈ l ↔ l.find? (fun r => r.1 == t) = some (t, v)) := by
  intro l
  induction l with
  | nil => intro _ t v; simp
  | cons r rs ih =>
    intro hn t v
    rw [List.map_cons, List.nodup_cons] at hn
    by_cases ht : r.1 = t
    · subst ht
      rw [List.find?_cons_of_pos _ (by simp)]
      constructor
      · intro h
        rcases List.mem_cons.mp h with heq | hmem
        · rw [← heq]
        · exact absurd (show (r.1, v).1 ∈ rs.map Prod.fst from
            List.mem_map_of_mem Prod.fst hmem) hn.1
      · intro h
        exact List.mem_cons.mpr (Or.inl (Option.some.inj h).symm)
    · rw [List.find?_cons_of_neg _ (by simpa using ht)]
      constructor
      · intro h
        rcases List.mem_cons.mp h with heq | hmem
        · exact absurd (congrArg Prod.fst heq).symm ht
        · exact (ih hn.2 t v).mp hmem
      · intro h
        exact List.mem_cons.mpr (Or.inr ((ih hn.2 t v).mpr h))

/-!  Structural lemmas about the earthquake cache pipeline. -/

theorem construct_rows_isSome (features : List EqEvent) :
    ∀ r ∈ (construct_earthquake_df features).rows, r.2.isSome = true := by
  intro r hr
  unfold construct_earthquake_df at hr
  dsimp only at hr
  have hr2 : r ∈ (features.filter (fun ev => ev.mag.isSome)).map (fun ev => (ev.time, ev.mag)) := by
    split at hr
    · exact (mem_sortTs _ _ _).mp hr
    · exact hr
  rcases List.mem_map.mp hr2 with ⟨ev, hev, rfl⟩
  exact (List.mem_filter.mp hev).2

theorem construct_tzAware_false (features : List EqEvent) :
    (construct_earthquake_df features).tzAware = false := by
  unfold construct_earthquake_df
  dsimp only
  split <;> rfl

theorem dfConcat_tz_false (a b : EqDF) (ha : a.tzAware = false) (hb : b.tzAware = false) :
    (dfConcat a b).tzAware = false := by
  unfold dfConcat
  dsimp only
  by_cases h1 : a.rows = [] <;> by_cases h2 : b.rows = [] <;> simp [h1, h2, ha, hb]

/-- The concatenation stage always yields the before-gap rows, then the cached
rows, then the after-gap rows, where gap rows come from
`construct_earthquake_df` and hence carry non-null magnitudes. -/
theorem eq_fetch_merge_split (f : Nat → Nat → EqResponse) (cached : EqDF) (s e : Nat) :
    ∃ pre post : List EqRow,
      (eq_fetch_merge f cached s e).1.rows = pre ++ (cached.rows ++ post) ∧
      (∀ r ∈ pre, r.2.isSome = true) ∧ (∀ r ∈ post, r.2.isSome = true) := by
  unfold eq_fetch_merge
  dsimp only
  by_cases h1 : s < (if cached.rows = [] then e else minKey Prod.fst cached.rows)
  · by_cases h2 : e > (if cached.rows = [] then s else maxKey Prod.fst cached.rows)
    · simp only [if_pos h1, if_pos h2]
      refine ⟨_, _, ?_,
        construct_rows_isSome
          (fetch_earthquake_json (f s (if cached.rows = [] then e
            else minKey Prod.fst cached.rows))).1,
        construct_rows_isSome
          (fetch_earthquake_json (f (if cached.rows = [] then s
            else maxKey Prod.fst cached.rows) e)).1⟩
      simp [dfConcat, List.append_assoc]
    · simp only [if_pos h1, if_neg h2]
      refine ⟨_, [], ?_,
        construct_rows_isSome
          (fetch_earthquake_json (f s (if cached.rows = [] then e
            else minKey Prod.fst cached.rows))).1,
        by simp⟩
      simp [dfConcat]
  · by_cases h2 : e > (if cached.rows = [] then s else maxKey Prod.fst cached.rows)
    · simp only [if_neg h1, if_pos h2]
      refine ⟨[], _, ?_, by simp,
        construct_rows_isSome
          (fetch_earthquake_json (f (if cached.rows = [] then s
            else maxKey Prod.fst cached.rows) e)).1⟩
      simp [dfConcat]
    · simp only [if_neg h1, if_neg h2]
      exact ⟨[], [], by simp, by simp, by simp⟩

/-- If the cached frame is naive, the concatenated frame is naive as well. -/
theorem eq_fetch_merge_tz (f : Nat → Nat → EqResponse) (cached : EqDF) (s e : Nat)
    (hc : cached.tzAware = false) :
    (eq_fetch_merge f cached s e).1.tzAware = false := by
  unfold eq_fetch_merge
  dsimp only
  by_cases h1 : s < (if cached.rows = [] then e else minKey Prod.fst cached.rows)
  · by_cases h2 : e > (if cached.rows = [] then s else maxKey Prod.fst cached.rows)
    · simp only [if_pos h1, if_pos h2]
      exact dfConcat_tz_false _ _ (dfConcat_tz_false _ _ (construct_tzAware_false _) hc)
        (construct_tzAware_false _)
    · simp only [if_pos h1, if_neg h2]
      exact dfConcat_tz_false _ _ (construct_tzAware_false _) hc
  · by_cases h2 : e > (if cached.rows = [] then s else maxKey Prod.fst cached.rows)
    · simp only [if_neg h1, if_pos h2]
      exact dfConcat_tz_false _ _ hc (construct_tzAware_false _)
    · simp only [if_neg h1, if_neg h2]
      exact hc

/-- Exact characterization of the fetch ranges issued by one call: on an empty
cache the sentinel bounds make BOTH gap branches fire over the full window; on
a non-empty cache the before-gap and/or after-gap fire against `minKey` /
`maxKey`. -/
theorem eq_fetch_merge_calls (f : Nat → Nat → EqResponse) (cached : EqDF) (s e : Nat) :
    (eq_fetch_merge f cached s e).2.1 =
      if cached.rows = [] then (if s < e then [(s, e), (s, e)] else [])
      else
        ((if s < minKey Prod.fst cached.rows then [(s, minKey Prod.fst cached.rows)] else []) ++
         (if maxKey Prod.fst cached.rows < e then [(maxKey Prod.fst cached.rows, e)] else [])) := by
  unfold eq_fetch_merge
  dsimp only
  by_cases hr : cached.rows = []
  · simp only [hr, if_true]
    by_cases hse : s < e
    · simp [hse]
    · simp [hse]
  · simp only [hr, if_false]
    by_cases h1 : s < minKey Prod.fst cached.rows <;>
      by_cases h2 : maxKey Prod.fst cached.rows < e <;>
      simp [h1, h2]

/-- Branch structure of `update_cache`: either the equality check failed and
the dedup-sort-persist path ran, or the concatenation equals the cached frame
and nothing was persisted. -/
theorem update_cache_cases (f : Nat → Nat → EqResponse) (c : Option EqDF) (s e : Nat) :
    ((update_cache f c s e).saved = true ∧
       (update_cache f c s e).returned =
         { rows := sortTs Prod.fst (dedupByKey Prod.fst [] (update_cache f c s e).merged_pre.rows),
           tzAware := (update_cache f c s e).merged_pre.tzAware } ∧
       (update_cache f c s e).persistedFile = some (update_cache f c s e).returned) ∨
    ((update_cache f c s e).saved = false ∧
       (update_cache f c s e).returned = c.getD emptyEqDF ∧
       (update_cache f c s e).merged_pre = c.getD emptyEqDF ∧
       (update_cache f c s e).persistedFile = c) := by
  unfold update_cache
  dsimp only
  split
  · left
    exact ⟨rfl, rfl, rfl⟩
  · next hne =>
    right
    have heq := not_not.mp hne
    exact ⟨rfl, heq, heq, rfl⟩

theorem update_cache_mergedPre (f : Nat → Nat → EqResponse) (c : Option EqDF) (s e : Nat) :
    (update_cache f c s e).merged_pre = (eq_fetch_merge f (c.getD emptyEqDF) s e).1 ∧
    (update_cache f c s e).fetchCalls = (eq_fetch_merge f (c.getD emptyEqDF) s e).2.1 ∧
    (update_cache f c s e).warnings = (eq_fetch_merge f (c.getD emptyEqDF) s e).2.2 := by
  unfold update_cache
  dsimp only
  split
  · exact ⟨rfl, rfl, rfl⟩
  · exact ⟨rfl, rfl, rfl⟩

/-- `to_pickle` is skipped exactly when the concatenated frame equals the
cached frame (before deduplication). -/
theorem update_cache_not_saved_iff (f : Nat → Nat → EqResponse) (c : Option EqDF) (s e : Nat) :
    ((update_cache f c s e).saved = false ↔
      (eq_fetch_merge f (c.getD emptyEqDF) s e).1 = c.getD emptyEqDF) := by
  unfold update_cache
  dsimp only
  split
  · next hne => exact iff_of_false (by simp) hne
  · next hne => exact iff_of_true rfl (not_not.mp hne)

theorem update_cache_persisted_ite (f : Nat → Nat → EqResponse) (c : Option EqDF) (s e : Nat) :
    (update_cache f c s e).persistedFile =
      (if (update_cache f c s e).saved then some (update_cache f c s e).returned else c) := by
  unfold update_cache
  dsimp only
  split
  · rfl
  · rfl

/-- When every upstream call fails (non-200 status), both gap fetches yield
empty frames, the concatenation equals the cached frame, and every issued
fetch left one warning. -/
theorem eq_fetch_merge_all_fail (f : Nat → Nat → EqResponse) (cached : EqDF) (s e : Nat)
    (hf : ∀ a b, (f a b).status ≠ 200) (hc : cached.tzAware = false) :
    (eq_fetch_merge f cached s e).1 = cached ∧
    (eq_fetch_merge f cached s e).2.2.length = (eq_fetch_merge f cached s e).2.1.length := by
  unfold eq_fetch_merge
  dsimp only
  have hjson : ∀ a b, fetch_earthquake_json (f a b) = ([], [(f a b).status]) := by
    intro a b
    unfold fetch_earthquake_json
    rw [if_pos (hf a b)]
  have hcon : construct_earthquake_df ([] : List EqEvent) = { rows := [], tzAware := false } := rfl
  have hleft : dfConcat { rows := [], tzAware := false } cached = cached := by
    simp [dfConcat]
  have hright : dfConcat cached { rows := [], tzAware := false } = cached := by
    cases cached with
    | mk rows tz =>
      cases hc
      unfold dfConcat
      by_cases h : rows = [] <;> simp [h]
  by_cases h1 : s < (if cached.rows = [] then e else minKey Prod.fst cached.rows)
  · by_cases h2 : e > (if cached.rows = [] then s else maxKey Prod.fst cached.rows)
    · simp [if_pos h1, if_pos h2, hjson, hcon, hleft, hright]
    · simp [if_pos h1, if_neg h2, hjson, hcon, hleft]
  · by_cases h2 : e > (if cached.rows = [] then s else maxKey Prod.fst cached.rows)
    · simp [if_neg h1, if_pos h2, hjson, hcon, hright]
    · simp [if_neg h1, if_neg h2]

/-- Whatever `update_cache` returns or persists is strictly ascending by
timestamp, provided the cached input was. -/
theorem update_cache_sorted_helper (f : Nat → Nat → EqResponse) (c : Option EqDF) (s e : Nat)
    (h : strictAscend (c.getD emptyEqDF).rows) :
    strictAscend (update_cache f c s e).returned.rows ∧
    (∀ d, (update_cache f c s e).persistedFile = some d → strictAscend d.rows) := by
  rcases update_cache_cases f c s e with ⟨_, hret, hp⟩ | ⟨_, hret, _, hp⟩
  · constructor
    · rw [hret]
      exact sortTs_dedup_strict Prod.fst _
    · intro d hd
      rw [hp] at hd
      cases Option.some.inj hd
      rw [hret]
      exact sortTs_dedup_strict Prod.fst _
  · constructor
    · rw [hret]
      exact h
    · intro d hd
      rw [hp] at hd
      have hgd : c.getD emptyEqDF = d := by rw [hd]; rfl
      rw [← hgd]
      exact h

/-!  Structural lemmas about the stock cache pipeline. -/

theorem fetch_stock_symbol (hist : String → Nat → Nat → List (Nat × Int))
    (sym : String) (s e : Nat) :
    ∀ r ∈ fetch_stock_data hist sym s e, r.symbol = sym := by
  intro r hr
  rcases List.mem_map.mp hr with ⟨p, _, rfl⟩
  rfl

/-- Every row kept by the before-gap step either comes from the cached slice
or was fetched with the requested symbol assigned. -/
theorem stock_fetch_before_mem (hist : String → Nat → Nat → List (Nat × Int))
    (symbol_df : List StockRow) (sym : String) (s E : Nat) :
    ∀ r ∈ (stock_fetch_before hist symbol_df sym s E).1,
      r ∈ symbol_df ∨ r.symbol = sym := by
  intro r hr
  unfold stock_fetch_before at hr
  split at hr
  · dsimp only at hr
    split at hr
    · rcases List.mem_append.mp hr with h | h
      · exact Or.inr (fetch_stock_symbol _ _ _ _ r h)
      · exact Or.inl h
    · exact Or.inl hr
  · exact Or.inl hr

/-- Every row produced by the stock gap-fetch stage either comes from the
cached slice or was fetched with the requested symbol assigned. -/
theorem stock_fetch_merge_mem (hist : String → Nat → Nat → List (Nat × Int))
    (symbol_df : List StockRow) (sym : String) (s e : Nat) :
    ∀ r ∈ (stock_fetch_merge hist symbol_df sym s e).1,
      r ∈ symbol_df ∨ r.symbol = sym := by
  intro r hr
  unfold stock_fetch_merge at hr
  dsimp only at hr
  generalize (if symbol_df = [] then e else minKey StockRow.ts symbol_df) = E at hr
  generalize (if symbol_df = [] then s else maxKey StockRow.ts symbol_df) = L at hr
  split at hr
  · split at hr
    · rcases List.mem_append.mp hr with h | h
      · exact stock_fetch_before_mem _ _ _ _ _ r h
      · exact Or.inr (fetch_stock_symbol _ _ _ _ r h)
    · exact stock_fetch_before_mem _ _ _ _ _ r hr
  · exact stock_fetch_before_mem _ _ _ _ _ r hr

theorem nodup_ts_of_pairs (l : List StockRow) (sym : String)
    (hall : ∀ r ∈ l, r.symbol = sym)
    (hp : (l.map (fun r => (r.ts, r.symbol))).Nodup) :
    (l.map StockRow.ts).Nodup := by
  have hp2 : l.Pairwise (fun a b => (a.ts, a.symbol) ≠ (b.ts, b.symbol)) :=
    List.pairwise_map.mp hp
  have hts : l.Pairwise (fun a b => a.ts ≠ b.ts) := by
    refine hp2.imp_of_mem ?_
    intro a b ha hb hne hts
    exact hne (by rw [hts, hall a ha, hall b hb])
  exact List.pairwise_map.mpr hts

theorem stock_dedup_sort_mem (slice : List StockRow) :
    ∀ r ∈ stock_dedup_sort slice, r ∈ slice := by
  intro r hr
  unfold stock_dedup_sort at hr
  split at hr
  · exact mem_dedupByKey ((mem_sortTs _ _ _).mp hr)
  · exact hr

theorem stock_dedup_sort_sorted (slice : List StockRow) (sym : String)
    (hall : ∀ r ∈ slice, r.symbol = sym) :
    stockAscend (stock_dedup_sort slice) := by
  unfold stock_dedup_sort
  split
  · apply pairwise_lt_of_sorted_nodup StockRow.ts _ (sortTs_sorted _ _)
    have hpairs := (dedupByKey_keys_nodup (fun r => (r.ts, r.symbol)) slice []).1
    have hallD : ∀ r ∈ dedupByKey (fun r => (r.ts, r.symbol)) [] slice, r.symbol = sym :=
      fun r hr => hall r (mem_dedupByKey hr)
    have hnodup := nodup_ts_of_pairs _ sym hallD hpairs
    exact (((sortTs_perm StockRow.ts _).map StockRow.ts).nodup_iff).mpr hnodup
  · next h =>
      rw [not_not.mp h]
      exact List.Pairwise.nil

theorem stock_returned_eq (hist : String → Nat → Nat → List (Nat × Int))
    (fc : List StockRow) (sym : String) (s e : Nat) :
    (stock_update_cache hist fc sym s e).returned =
      stock_dedup_sort
        (stock_fetch_merge hist (fc.filter (fun r => r.symbol == sym)) sym s e).1 := by
  unfold stock_update_cache
  dsimp only
  split
  · rfl
  · rfl

theorem stock_newCache_cases (hist : String → Nat → Nat → List (Nat × Int))
    (fc : List StockRow) (sym : String) (s e : Nat) :
    (stock_update_cache hist fc sym s e).newCache = fc ∨
    (stock_update_cache hist fc sym s e).newCache =
      fc.filter (fun r => !(r.symbol == sym)) ++ (stock_update_cache hist fc sym s e).returned := by
  unfold stock_update_cache
  dsimp only
  split
  · right; rfl
  · left; rfl

/-- The stock variant's `to_pickle` is skipped exactly when the DEDUPED,
SORTED slice equals the cached slice (the comparison happens after step 5,
unlike the earthquake variant's pre-dedup check), and a skipped save leaves
the cache file untouched. -/
theorem stock_not_saved_iff (hist : String → Nat → Nat → List (Nat × Int))
    (fc : List StockRow) (sym : String) (s e : Nat) :
    ((stock_update_cache hist fc sym s e).saved = false ↔
      stock_dedup_sort
          (stock_fetch_merge hist (fc.filter (fun r => r.symbol == sym)) sym s e).1
        = fc.filter (fun r => r.symbol == sym)) ∧
    ((stock_update_cache hist fc sym s e).saved = false →
      (stock_update_cache hist fc sym s e).newCache = fc) := by
  unfold stock_update_cache
  dsimp only
  split
  · next hne =>
    exact ⟨iff_of_false (by simp) hne, fun h => absurd h (by simp)⟩
  · next hne =>
    exact ⟨iff_of_true rfl (not_not.mp hne), fun _ => rfl⟩

/-- All rows returned by the stock cache update carry the requested symbol. -/
theorem stock_returned_symbols (hist : String → Nat → Nat → List (Nat × Int))
    (fc : List StockRow) (sym : String) (s e : Nat) :
    ∀ r ∈ (stock_update_cache hist fc sym s e).returned, r.symbol = sym := by
  intro r hr
  rw [stock_returned_eq] at hr
  have h2 := stock_fetch_merge_mem hist (fc.filter (fun x => x.symbol == sym)) sym s e r
    (stock_dedup_sort_mem _ r hr)
  rcases h2 with h | h
  · exact eq_of_beq (List.mem_filter.mp h).2
  · exact h

/-- Filtering the non-`symA` part of a cache for a different symbol `symB`
gives the same rows as filtering the whole cache. -/
theorem stock_other_filter (fc : List StockRow) (symA symB : String) (hne : symB ≠ symA) :
    (fc.filter (fun r => !(r.symbol == symA))).filter (fun r => r.symbol == symB) =
      fc.filter (fun r => r.symbol == symB) := by
  induction fc with
  | nil => rfl
  | cons r rs ih =>
    by_cases hA : r.symbol = symA
    · have hAB : symA ≠ symB := fun h => hne h.symm
      simp [List.filter_cons, hA, hAB, ih]
    · simp [List.filter_cons, hA, ih]

theorem stock_other_filter_self (fc : List StockRow) (symA : String) :
    (fc.filter (fun r => !(r.symbol == symA))).filter (fun r => r.symbol == symA) = [] := by
  induction fc with
  | nil => rfl
  | cons r rs ih =>
    by_cases hA : r.symbol = symA
    · simp [List.filter_cons, hA, ih]
    · simp [List.filter_cons, hA, ih]

theorem main_display_df_rows (df : EqDF) : (main_display_df df).rows = df.rows := by
  unfold main_display_df
  split <;> rfl

theorem mainPipeline_rows (f : Nat → Nat → EqResponse) (c : Option EqDF) (s e : Nat) (m : Int) :
    (mainPipeline f c s e m).rows =
      ((update_cache f c s e).returned.rows.filter (fun r => magGE r.2 m)).filter
        (fun r => decide (s ≤ r.1)) := by
  unfold mainPipeline main_filter
  dsimp only
  rw [main_display_df_rows]

/-!  Claims. -/

/-- Claim C1 (counterexample): for a `GetRange`/`update_cache` request over
`[0, 10)` with no cached records, the code issues TWO fetch calls, both over
the full range `[0, 10)` — not "exactly one fetch over the single missing
range" as the claim states (the sentinel bounds `earliest = end_time`,
`latest = start_time` make both gap branches fire). -/
theorem C1_counterexample :
    (update_cache fetcherOneEvent none 0 10).fetchCalls = [(0, 10), (0, 10)] ∧
    ¬ (update_cache fetcherOneEvent none 0 10).fetchCalls.length = 1 := by
  decide

/-- Claim C1 (amended): exact characterization of the fetch calls issued by
`update_cache`: with an empty cache the before-gap and after-gap branches both
fire over the full window `[s, e)`, issuing two identical fetches (none when
`s ≥ e`); with a non-empty cache, a before-gap `[s, earliest)` is fetched iff
`s < earliest` and an after-gap `[latest, e)` iff `e > latest`; in particular a
window lying inside coverage issues zero fetches. -/
theorem C1_amended (f : Nat → Nat → EqResponse) (c : Option EqDF) (s e : Nat) :
    (update_cache f c s e).fetchCalls =
      if (c.getD emptyEqDF).rows = [] then (if s < e then [(s, e), (s, e)] else [])
      else
        ((if s < minKey Prod.fst (c.getD emptyEqDF).rows then
            [(s, minKey Prod.fst (c.getD emptyEqDF).rows)] else []) ++
         (if maxKey Prod.fst (c.getD emptyEqDF).rows < e then
            [(maxKey Prod.fst (c.getD emptyEqDF).rows, e)] else [])) := by
  rw [(update_cache_mergedPre f c s e).2.1]
  exact eq_fetch_merge_calls f _ s e

/-- Claim C2 (counterexample): the cache holds `(5, 10)`; the after-gap fetch
re-returns timestamp 5 with the fresher value 99.  The merged result keeps the
OLD cached value 10 (pandas `drop_duplicates` keep="first" on the
concatenation `[cached, newer]`), not the most-recently-fetched 99 the claim
demands. -/
theorem C2_counterexample :
    (update_cache fetcherSeam
        (some { rows := [(5, some 10)], tzAware := false }) 5 10).returned.rows
      = [(5, some 10), (7, some 3)] ∧
    (5, some 99) ∉ (update_cache fetcherSeam
        (some { rows := [(5, some 10)], tzAware := false }) 5 10).returned.rows := by
  decide

/-- Claim C2 (amended): the merge keeps, for each timestamp, exactly the FIRST
record bearing it in the concatenation order (before-gap fetch, then cached
rows, then after-gap fetch) — so the cached value beats an after-gap refetch —
and the merged sequence has no duplicate timestamps (assuming the cached frame
had none). -/
theorem C2_amended (f : Nat → Nat → EqResponse) (c : EqDF) (s e : Nat)
    (h : (c.rows.map Prod.fst).Nodup) :
    ((update_cache f (some c) s e).returned.rows.map Prod.fst).Nodup ∧
    (∀ (t : Nat) (v : Option Int),
      ((t, v) ∈ (update_cache f (some c) s e).returned.rows ↔
        (update_cache f (some c) s e).merged_pre.rows.find? (fun r => r.1 == t)
          = some (t, v))) := by
  rcases update_cache_cases f (some c) s e with ⟨_, hret, _⟩ | ⟨_, hret, hm, _⟩
  · constructor
    · rw [hret]
      have h1 := (dedupByKey_keys_nodup Prod.fst
        ((update_cache f (some c) s e).merged_pre.rows) []).1
      exact (((sortTs_perm Prod.fst _).map Prod.fst).nodup_iff).mpr h1
    · intro t v
      rw [hret]
      dsimp only
      rw [mem_sortTs, mem_dedup_fst_iff]
      simp
  · constructor
    · rw [hret]
      exact h
    · intro t v
      rw [hret, hm]
      exact mem_iff_find_of_nodup_keys c.rows h t v

/-- Claim C3 (counterexample): starting from an empty store, the same request
`[0, 6)` is made twice against an unchanged upstream (`fetcherWorld`).  The
second call returns exactly the same data as the first, yet `saved = true`: a
second `to_pickle` runs, because the after-gap refetches the boundary record
and the source compares the concatenation to the cache BEFORE deduplicating. -/
theorem C3_counterexample :
    (update_cache fetcherWorld
        ((update_cache fetcherWorld none 0 6).persistedFile) 0 6).saved = true ∧
    (update_cache fetcherWorld
        ((update_cache fetcherWorld none 0 6).persistedFile) 0 6).returned =
      (update_cache fetcherWorld none 0 6).returned := by
  decide

/-- Claim C3 (amended): repeated identical requests return identical data,
but the two variants decide persistence differently.  The earthquake variant
compares the PRE-dedup concatenation to the cache, so persistence is skipped
exactly when that concatenation equals the cached frame — a boundary refetch
makes it differ and a second `Save` fires even though the final merged
sequence equals the cached content (see the counterexample).  The stock
variant dedups and sorts the slice BEFORE comparing (line 91), so persistence
is skipped exactly when the post-dedup slice equals the cached slice; on a
repeated identical request the boundary refetch is deduplicated away and no
second save occurs, as the closing concrete two-call run shows. -/
theorem C3_amended (f : Nat → Nat → EqResponse) (c : Option EqDF) (s e : Nat)
    (hist : String → Nat → Nat → List (Nat × Int)) (fc : List StockRow) (sym : String)
    (s2 e2 : Nat) :
    ((update_cache f c s e).saved = false ↔
      (update_cache f c s e).merged_pre = c.getD emptyEqDF) ∧
    ((update_cache f c s e).persistedFile =
      (if (update_cache f c s e).saved then some (update_cache f c s e).returned else c)) ∧
    ((stock_update_cache hist fc sym s2 e2).saved = false ↔
      stock_dedup_sort
          (stock_fetch_merge hist (fc.filter (fun r => r.symbol == sym)) sym s2 e2).1
        = fc.filter (fun r => r.symbol == sym)) ∧
    ((stock_update_cache hist fc sym s2 e2).saved = false →
      (stock_update_cache hist fc sym s2 e2).newCache = fc) ∧
    (stock_update_cache histWorld
        (stock_update_cache histWorld [] "A" 0 6).newCache "A" 0 6).saved = false ∧
    (stock_update_cache histWorld
        (stock_update_cache histWorld [] "A" 0 6).newCache "A" 0 6).returned =
      (stock_update_cache histWorld [] "A" 0 6).returned := by
  refine ⟨?_, update_cache_persisted_ite f c s e,
    (stock_not_saved_iff hist fc sym s2 e2).1,
    (stock_not_saved_iff hist fc sym s2 e2).2, ?_, ?_⟩
  · rw [(update_cache_mergedPre f c s e).1]
    exact update_cache_not_saved_iff f c s e
  · decide
  · decide

theorem C2_amended_witness :
    (((update_cache fetcherEmpty
        (some { rows := [(1, some 2)], tzAware := false }) 0 9).returned.rows).map
      Prod.fst).Nodup :=
  (C2_amended fetcherEmpty { rows := [(1, some 2)], tzAware := false } 0 9 (by decide)).1

/-- Claim C4 (counterexample): every fetch fails (HTTP 500) and no cached data
exists, yet the call succeeds: `fetch_earthquake_json` shows `st.error` and
returns `{"features": []}`, so `update_cache` returns an empty frame and the
run raises no `NoDataAvailableError` (no such error exists in the code). -/
theorem C4_counterexample :
    update_cache_load fetcherFail none 0 10
      = Except.ok (update_cache fetcherFail none 0 10) ∧
    (update_cache fetcherFail none 0 10).returned.rows = [] ∧
    (update_cache fetcherFail none 0 10).saved = false ∧
    (update_cache fetcherFail none 0 10).warnings = [500, 500] := by
  refine ⟨rfl, ?_, ?_, ?_⟩ <;> decide

/-- Claim C4 (amended): when every gap fetch fails, the call still succeeds:
the cached frame is returned unchanged, nothing is persisted, and one
`st.error` warning is surfaced per issued fetch; with an empty cache the
result is an empty frame, never a `NoDataAvailableError`. -/
theorem C4_amended (f : Nat → Nat → EqResponse) (c : Option EqDF) (s e : Nat)
    (hf : ∀ a b, (f a b).status ≠ 200) (hc : (c.getD emptyEqDF).tzAware = false) :
    (update_cache f c s e).returned = c.getD emptyEqDF ∧
    (update_cache f c s e).saved = false ∧
    (update_cache f c s e).persistedFile = c ∧
    (update_cache f c s e).warnings.length = (update_cache f c s e).fetchCalls.length := by
  have hm := eq_fetch_merge_all_fail f (c.getD emptyEqDF) s e hf hc
  have hns : (update_cache f c s e).saved = false :=
    (update_cache_not_saved_iff f c s e).mpr hm.1
  rcases update_cache_cases f c s e with ⟨hs, _, _⟩ | ⟨_, hret, _, hp⟩
  · rw [hns] at hs
    exact absurd hs (by decide)
  · refine ⟨hret, hns, hp, ?_⟩
    rw [(update_cache_mergedPre f c s e).2.1, (update_cache_mergedPre f c s e).2.2]
    exact hm.2

theorem C4_amended_witness :
    (update_cache fetcherFail
        (some { rows := [(1, some 2)], tzAware := false }) 0 9).returned
      = { rows := [(1, some 2)], tzAware := false } :=
  (C4_amended fetcherFail (some { rows := [(1, some 2)], tzAware := false }) 0 9
    (fun _ _ => (by decide : (500 : Nat) ≠ 200)) (by decide)).1

/-- Claim C5 (counterexample): the cache holds a record at `t = 9`; the
request window is `[0, 5)`.  The display step keeps the record (`timestamp >=
start_time` is the only bound applied), although `9 ∉ [0, 5)` — the claim's
end-exclusive restriction is not implemented. -/
theorem C5_counterexample :
    (mainPipeline fetcherEmpty
        (some { rows := [(9, some 3)], tzAware := false }) 0 5 0).rows
      = [(9, some 3)] ∧
    ¬ (9 < 5) := by
  decide

/-- Claim C5 (amended): the displayed sequence is exactly the subsequence of
the merged series with magnitude at least the threshold and timestamp at least
`start` — no end-exclusive upper bound is applied — in ascending timestamp
order. -/
theorem C5_amended (f : Nat → Nat → EqResponse) (c : Option EqDF) (s e : Nat) (m : Int)
    (h : strictAscend (c.getD emptyEqDF).rows) :
    (∀ r : EqRow, r ∈ (mainPipeline f c s e m).rows ↔
      (r ∈ (update_cache f c s e).returned.rows ∧ magGE r.2 m = true ∧ s ≤ r.1)) ∧
    strictAscend (mainPipeline f c s e m).rows := by
  have hsorted := (update_cache_sorted_helper f c s e h).1
  constructor
  · intro r
    rw [mainPipeline_rows]
    simp only [List.mem_filter]
    constructor
    · rintro ⟨⟨h1, h2⟩, h3⟩
      exact ⟨h1, h2, by simpa using h3⟩
    · rintro ⟨h1, h2, h3⟩
      exact ⟨⟨h1, h2⟩, by simpa using h3⟩
  · rw [mainPipeline_rows]
    exact List.Pairwise.filter _ (List.Pairwise.filter _ hsorted)

theorem C5_amended_witness :
    strictAscend (mainPipeline fetcherEmpty
      (some { rows := [(3, some 1)], tzAware := false }) 0 9 0).rows :=
  (C5_amended fetcherEmpty (some { rows := [(3, some 1)], tzAware := false }) 0 9 0
    (by decide)).2

/-- Claim C6 (confirmed): after every merge, the stored sequence of records of
every series is strictly ascending by timestamp (hence duplicate-free), both
for the in-memory result and for the persisted store, in the earthquake
variant (single series) and in the stock variant (per-symbol slices of the
shared cache file), given that the loaded store already satisfied the
invariant (it holds vacuously for the empty initial store). -/
theorem C6_sort_invariant (f : Nat → Nat → EqResponse) (c : Option EqDF) (s e : Nat)
    (hist : String → Nat → Nat → List (Nat × Int)) (fc : List StockRow) (sym : String)
    (s2 e2 : Nat)
    (h1 : strictAscend (c.getD emptyEqDF).rows)
    (h2 : ∀ sym' : String, stockAscend (fc.filter (fun r => r.symbol == sym'))) :
    strictAscend (update_cache f c s e).returned.rows ∧
    (∀ d, (update_cache f c s e).persistedFile = some d → strictAscend d.rows) ∧
    stockAscend (stock_update_cache hist fc sym s2 e2).returned ∧
    (∀ sym' : String,
      stockAscend ((stock_update_cache hist fc sym s2 e2).newCache.filter
        (fun r => r.symbol == sym'))) := by
  refine ⟨(update_cache_sorted_helper f c s e h1).1,
    (update_cache_sorted_helper f c s e h1).2, ?_, ?_⟩
  · rw [stock_returned_eq]
    apply stock_dedup_sort_sorted _ sym
    intro r hr
    rcases stock_fetch_merge_mem hist _ sym s2 e2 r hr with h | h
    · exact eq_of_beq (List.mem_filter.mp h).2
    · exact h
  · intro sym'
    rcases stock_newCache_cases hist fc sym s2 e2 with hnc | hnc
    · rw [hnc]
      exact h2 sym'
    · rw [hnc, List.filter_append]
      by_cases hss : sym' = sym
      · subst hss
        rw [stock_other_filter_self, List.nil_append]
        have hall := stock_returned_symbols hist fc sym' s2 e2
        rw [List.filter_eq_self.mpr (fun r hr => beq_iff_eq.mpr (hall r hr))]
        rw [stock_returned_eq]
        apply stock_dedup_sort_sorted _ sym'
        intro r hr
        rcases stock_fetch_merge_mem hist _ sym' s2 e2 r hr with h | h
        · exact eq_of_beq (List.mem_filter.mp h).2
        · exact h
      · rw [stock_other_filter fc sym sym' hss]
        have hnil : (stock_update_cache hist fc sym s2 e2).returned.filter
            (fun r => r.symbol == sym') = [] := by
          rw [List.filter_eq_nil_iff]
          intro r hr hbeq
          exact hss ((eq_of_beq hbeq).symm.trans
            (stock_returned_symbols hist fc sym s2 e2 r hr))
        rw [hnil, List.append_nil]
        exact h2 sym'

theorem C6_witness :
    stockAscend (stock_update_cache histEmpty [] "AAPL" 0 5).returned :=
  (C6_sort_invariant fetcherEmpty none 0 5 histEmpty [] "AAPL" 0 5
    List.Pairwise.nil (fun _ => List.Pairwise.nil)).2.2.1

/-- Claim C7 (confirmed): a `GetRange`/`update_cache` call for symbol `A`
leaves the persisted records of any other symbol `B` unchanged: the persist
step writes the non-`A` rows of the full cache followed by the new `A` slice,
so the `B` slice of the new store equals the `B` slice of the old store. -/
theorem C7_isolation (hist : String → Nat → Nat → List (Nat × Int)) (fc : List StockRow)
    (symA : String) (s e : Nat) (symB : String) (h : symB ≠ symA) :
    (stock_update_cache hist fc symA s e).newCache.filter (fun r => r.symbol == symB) =
      fc.filter (fun r => r.symbol == symB) := by
  rcases stock_newCache_cases hist fc symA s e with hnc | hnc
  · rw [hnc]
  · rw [hnc, List.filter_append, stock_other_filter fc symA symB h]
    have hnil : (stock_update_cache hist fc symA s e).returned.filter
        (fun r => r.symbol == symB) = [] := by
      rw [List.filter_eq_nil_iff]
      intro r hr hbeq
      exact h ((eq_of_beq hbeq).symm.trans
        (stock_returned_symbols hist fc symA s e r hr))
    rw [hnil, List.append_nil]

theorem C7_witness :
    (stock_update_cache histEmpty [{ ts := 1, price := 2, symbol := "B" }] "A" 0 5).newCache.filter
        (fun r => r.symbol == "B")
      = [{ ts := 1, price := 2, symbol := "B" }].filter (fun r => r.symbol == "B") :=
  C7_isolation histEmpty [{ ts := 1, price := 2, symbol := "B" }] "A" 0 5 "B" (by decide)

/-- Claim C8 (counterexample): a cache file whose bytes cannot be unpickled
makes `pd.read_pickle` raise; the script has no handler, so the exception
propagates to the caller — the store is NOT treated as empty and no
`CorruptStoreError` recovery exists. -/
theorem C8_counterexample :
    update_cache_load fetcherEmpty (some (Except.error "bad pickle")) 0 5
      = Except.error "bad pickle" ∧
    update_cache_load fetcherEmpty (some (Except.error "bad pickle")) 0 5
      ≠ Except.ok (update_cache fetcherEmpty none 0 5) := by
  refine ⟨rfl, ?_⟩
  intro h
  exact Except.noConfusion h

/-- Claim C8 (amended): a missing cache file is treated as an empty store (no
error), but undecodable persisted bytes make the load raise and the exception
propagates uncaught; there is no recovery to an empty store. -/
theorem C8_amended :
    (∀ (f : Nat → Nat → EqResponse) (s e : Nat),
        update_cache_load f none s e = Except.ok (update_cache f none s e)) ∧
    (∀ (f : Nat → Nat → EqResponse) (s e : Nat),
        (update_cache f none s e).merged_pre
          = (update_cache f (some emptyEqDF) s e).merged_pre) ∧
    (∀ (f : Nat → Nat → EqResponse) (s e : Nat) (msg : String),
        update_cache_load f (some (Except.error msg)) s e = Except.error msg) := by
  refine ⟨fun f s e => rfl, fun f s e => ?_, fun f s e msg => rfl⟩
  exact ((update_cache_mergedPre f none s e).1).trans
    ((update_cache_mergedPre f (some emptyEqDF) s e).1).symm

/-- Claim C9 (counterexample): a run that persists data stores a frame whose
timestamp column is NAIVE (`tzAware = false`): `construct_earthquake_df`
builds timestamps with `pd.to_datetime(unit="ms")`, which carries no timezone,
and the persisted cache inherits that dtype. -/
theorem C9_counterexample :
    (update_cache fetcherSingle none 0 10).persistedFile
      = some { rows := [(5, some 2)], tzAware := false } ∧
    (update_cache fetcherSingle none 0 10).persistedFile.map EqDF.tzAware ≠ some true := by
  decide

/-- Claim C9 (amended): every frame the earthquake monitor persists is naive
(only the coverage bounds `earliest_cached` / `latest_cached` are
`tz_localize`d to UTC, for the gap comparison against the caller's aware
bounds), while `main` localizes the returned frame to UTC just before
display. -/
theorem C9_amended (f : Nat → Nat → EqResponse) (c : Option EqDF) (s e : Nat)
    (hc : (c.getD emptyEqDF).tzAware = false) :
    (∀ d, (update_cache f c s e).persistedFile = some d → d.tzAware = false) ∧
    (∀ df : EqDF, df.rows ≠ [] → (main_display_df df).tzAware = true) := by
  constructor
  · intro d hd
    rcases update_cache_cases f c s e with ⟨_, hret, hp⟩ | ⟨_, _, _, hp⟩
    · rw [hp] at hd
      cases Option.some.inj hd
      rw [hret]
      dsimp only
      rw [(update_cache_mergedPre f c s e).1]
      exact eq_fetch_merge_tz f _ s e hc
    · rw [hp] at hd
      have hgd : c.getD emptyEqDF = d := by rw [hd]; rfl
      rw [← hgd]
      exact hc
  · intro df hdf
    unfold main_display_df
    by_cases ht : df.tzAware = false
    · rw [if_pos ⟨hdf, ht⟩]
    · rw [if_neg (fun hand => ht hand.2)]
      cases hb : df.tzAware
      · exact absurd hb ht
      · rfl

theorem C9_amended_witness :
    (main_display_df { rows := [(1, some 2)], tzAware := false }).tzAware = true :=
  (C9_amended fetcherEmpty none 0 1 rfl).2
    { rows := [(1, some 2)], tzAware := false } (by decide)

/-- Claim C10 (confirmed): `construct_earthquake_df` drops every fetched event
whose magnitude is `None` before it reaches the merge, so — given a cache
whose magnitudes are all non-null, as the empty initial cache is — both the
returned frame and any persisted frame contain no null magnitude. -/
theorem C10_no_null_mags (f : Nat → Nat → EqResponse) (c : Option EqDF) (s e : Nat)
    (h : ∀ r ∈ (c.getD emptyEqDF).rows, r.2.isSome = true) :
    (∀ r ∈ (update_cache f c s e).returned.rows, r.2.isSome = true) ∧
    (∀ d, (update_cache f c s e).persistedFile = some d →
      ∀ r ∈ d.rows, r.2.isSome = true) := by
  have hmerged : ∀ r ∈ (update_cache f c s e).merged_pre.rows, r.2.isSome = true := by
    rw [(update_cache_mergedPre f c s e).1]
    rcases eq_fetch_merge_split f (c.getD emptyEqDF) s e with ⟨pre, post, hrows, hpre, hpost⟩
    rw [hrows]
    intro r hr
    rcases List.mem_append.mp hr with hr | hr
    · exact hpre r hr
    · rcases List.mem_append.mp hr with hr | hr
      · exact h r hr
      · exact hpost r hr
  rcases update_cache_cases f c s e with ⟨_, hret, hp⟩ | ⟨_, hret, _, hp⟩
  · have hretmem : ∀ r ∈ (update_cache f c s e).returned.rows, r.2.isSome = true := by
      rw [hret]
      intro r hr
      exact hmerged r (mem_dedupByKey ((mem_sortTs _ _ _).mp hr))
    refine ⟨hretmem, ?_⟩
    intro d hd
    rw [hp] at hd
    cases Option.some.inj hd
    exact hretmem
  · constructor
    · rw [hret]
      exact h
    · intro d hd
      rw [hp] at hd
      have hgd : c.getD emptyEqDF = d := by rw [hd]; rfl
      rw [← hgd]
      exact h

theorem C10_witness :
    ((update_cache fetcherSingle
        (some { rows := [(1, some 2)], tzAware := false }) 0 9).returned.rows.all
      (fun r => r.2.isSome)) = true :=
  List.all_eq_true.mpr
    (fun r hr =>
      (C10_no_null_mags fetcherSingle
        (some { rows := [(1, some 2)], tzAware := false }) 0 9
        (by decide)).1 r hr)
